import Mathlib

/-
Verification of the nu_choate_league derivation engines against their
specification.  The Python modules under src/ are shallowly embedded:
dictionaries become association lists, floating-point scores become
rationals, fallible lookups become Option, and each embedded definition
cites the source lines it translates.
-/

set_option maxHeartbeats 1000000

/-- One entry of a weekly "matchups.json" list, as consumed by
`standings.py`.  `matchup.get("matchup_id")` and `matchup.get("roster_id")`
yield `none` when the key is absent; `matchup.get("points", 0.0)` defaults
to `0.0`, so the points field is optional with default 0. -/
structure MatchupEntry where
  matchup_id : Option ℕ
  roster_id : Option ℕ
  points : Option ℚ
deriving Repr, DecidableEq

/-- Python truthiness of an optional integer id: `None` and `0` are falsy. -/
def truthyId : Option ℕ → Bool
  | none => false
  | some n => n != 0

/-- `matchup.get("points", 0.0)`. -/
def getPoints : Option ℚ → ℚ
  | none => 0
  | some p => p

/-- One cumulative standing record: the dictionary built per roster by
`_initialize_standings` (standings.py lines 106-117).  The `roster_id`
key of that dictionary is the association-list key of `Standings` below. -/
structure TeamRecord where
  team_name : String
  wins : ℕ
  losses : ℕ
  ties : ℕ
  pf : ℚ
  pa : ℚ
  transaction_count : ℕ
deriving Repr, DecidableEq

/-- The standings dictionary keyed by roster id, in insertion order. -/
abbrev Standings : Type := List (ℕ × TeamRecord)

/-- Point update of one roster record.  In Python `standings[rid][f] += x`
raises KeyError when `rid` is absent; the model leaves the snapshot
unchanged in that case, and no theorem below depends on absent keys. -/
def updRec (s : Standings) (rid : ℕ) (f : TeamRecord → TeamRecord) : Standings :=
  s.map (fun p => if p.1 = rid then (p.1, f p.2) else p)

/-- Keys of a Python defaultdict in insertion order: the first occurrence
of each value is kept, later duplicates are dropped. -/
def firstOccur (l : List ℕ) : List ℕ :=
  l.foldl (fun acc k => if k ∈ acc then acc else acc ++ [k]) []

/-- `_group_matchups_by_id` (standings.py lines 8-23, identical to
`group_matchups_by_id` in utils/matchup_utils.py lines 6-21): entries with
a falsy (`None` or `0`) matchup id are skipped; the remaining entries are
grouped by matchup id, keys in first-occurrence order. -/
def groupKeys (ms : List MatchupEntry) : List ℕ :=
  firstOccur (ms.filterMap (fun m => if truthyId m.matchup_id then m.matchup_id else none))

/-- The list of entries of one matchup group. -/
def groupOf (ms : List MatchupEntry) (k : ℕ) : List MatchupEntry :=
  ms.filter (fun m => decide (m.matchup_id = some k))

/-- The matchup-scoring branch of `_process_week_data` (standings.py lines
54-80): a group is scored only when it has exactly two entries and both
roster ids are truthy; then points-for and points-against of both sides
are accumulated and exactly one of win/loss/tie is credited. -/
def scoreGroup (s : Standings) (g : List MatchupEntry) : Standings :=
  match g with
  | [t1, t2] =>
    match t1.roster_id, t2.roster_id with
    | some r1, some r2 =>
      if r1 ≠ 0 ∧ r2 ≠ 0 then
        let p1 := getPoints t1.points
        let p2 := getPoints t2.points
        let s4 :=
          updRec (updRec (updRec (updRec s
            r1 (fun r => { r with pf := r.pf + p1 }))
            r1 (fun r => { r with pa := r.pa + p2 }))
            r2 (fun r => { r with pf := r.pf + p2 }))
            r2 (fun r => { r with pa := r.pa + p1 })
        if p1 > p2 then
          updRec (updRec s4 r1 (fun r => { r with wins := r.wins + 1 }))
            r2 (fun r => { r with losses := r.losses + 1 })
        else if p2 > p1 then
          updRec (updRec s4 r1 (fun r => { r with losses := r.losses + 1 }))
            r2 (fun r => { r with wins := r.wins + 1 })
        else
          updRec (updRec s4 r1 (fun r => { r with ties := r.ties + 1 }))
            r2 (fun r => { r with ties := r.ties + 1 })
      else s
    | _, _ => s
  | _ => s

/-- The matchup loop of `_process_week_data` (standings.py lines 50-80):
fold `scoreGroup` over the groups in key order. -/
def processMatchups (s : Standings) (ms : List MatchupEntry) : Standings :=
  (groupKeys ms).foldl (fun acc k => scoreGroup acc (groupOf ms k)) s

/-- One entry of a weekly "transactions.json" list as used by
`_process_week_data`: `transaction.get("status")` and
`transaction.get("roster_ids", [])`. -/
structure Txn where
  status : Option String
  roster_ids : List ℕ
deriving Repr, DecidableEq

/-- Dictionary lookup on a snapshot (first matching key). -/
def lookupRec : Standings → ℕ → Option TeamRecord
  | [], _ => none
  | p :: tl, q => if q = p.1 then some p.2 else lookupRec tl q

/-- The transaction loop of `_process_week_data` (standings.py lines
87-93): each transaction with status "complete" increments the
transaction counter of every listed roster present in the standings. -/
def processTxns (s : Standings) (ts : List Txn) : Standings :=
  ts.foldl (fun acc t =>
    if t.status = some "complete" then
      t.roster_ids.foldl (fun a rid =>
        if (lookupRec a rid).isSome then
          updRec a rid (fun r => { r with transaction_count := r.transaction_count + 1 })
        else a) acc
    else acc) s

/-- The on-disk data of one week: `none` models a missing "matchups.json"
(in which case `_process_week_data` returns immediately, standings.py
lines 43-44); the transactions field models an optional
"transactions.json". -/
structure WeekData where
  matchups : List MatchupEntry
  transactions : Option (List Txn)
deriving Repr, DecidableEq

/-- A season data set: the contents of `season_dir`, week by week. -/
abbrev SeasonData : Type := ℕ → Option WeekData

/-- `_process_week_data` (standings.py lines 26-93). -/
def processWeekData (season : SeasonData) (week : ℕ) (s : Standings) : Standings :=
  match season week with
  | none => s
  | some wd =>
    let s1 := processMatchups s wd.matchups
    match wd.transactions with
    | none => s1
    | some ts => processTxns s1 ts

/-- `_initialize_standings` (standings.py lines 96-118); the rosters map
carries the team name of each roster id. -/
def initStandings (rosters_map : List (ℕ × String)) : Standings :=
  rosters_map.map (fun p => (p.1, ⟨p.2, 0, 0, 0, 0, 0, 0⟩))

/-- The deep copy of a previous snapshot performed by
`calculate_weekly_standings_dict` (standings.py lines 210-224): every
record is rebuilt field by field. -/
def copyStandings (s : Standings) : Standings :=
  s.map (fun p => (p.1,
    { team_name := p.2.team_name, wins := p.2.wins, losses := p.2.losses,
      ties := p.2.ties, pf := p.2.pf, pa := p.2.pa,
      transaction_count := p.2.transaction_count }))

/-- Python `range(1, week + 1)`. -/
def weeksUpTo (week : ℕ) : List ℕ :=
  (List.range week).map (· + 1)

/-- `calculate_weekly_standings_dict` (standings.py lines 183-228): with no
previous snapshot, fold all weeks 1..week from the initialized standings;
with a previous snapshot (holding weeks 1..week-1), deep-copy it and
process only the current week. -/
def calcWeeklyStandingsDict (season : SeasonData) (week : ℕ)
    (rosters_map : List (ℕ × String)) (previous_standings : Option Standings) : Standings :=
  match previous_standings with
  | none => (weeksUpTo week).foldl (fun s w => processWeekData season w s) (initStandings rosters_map)
  | some p => processWeekData season week (copyStandings p)

theorem copyStandings_eq (s : Standings) : copyStandings s = s := by
  simp [copyStandings]

/-- C1: for every season data set and every week w = n + 1 >= 1, the
incremental computation (processing only week w on top of the snapshot
computed for weeks 1..n) equals the one-shot full recomputation that
folds weeks 1..w from the initialized empty standings. -/
theorem calc_weekly_standings_incremental_eq_full
    (season : SeasonData) (rosters_map : List (ℕ × String)) (n : ℕ) :
    calcWeeklyStandingsDict season (n + 1) rosters_map
      (some (calcWeeklyStandingsDict season n rosters_map none)) =
    calcWeeklyStandingsDict season (n + 1) rosters_map none := by
  simp only [calcWeeklyStandingsDict, copyStandings_eq, weeksUpTo,
    List.range_succ, List.map_append, List.foldl_append, List.map_cons,
    List.map_nil, List.foldl_cons, List.foldl_nil]

/-- The win-fraction computation of `standings_to_list` (standings.py
lines 133-137): divide only when at least one game was played. -/
def computeWinPct (wins losses ties : ℕ) : ℚ :=
  let total_games := wins + losses + ties
  if total_games > 0 then (wins : ℚ) / (total_games : ℚ) else 0

/-- C9: for every roster record, the ranking computation returns win
fraction wins / (wins + losses + ties) when at least one game was played
and 0 when no game was played; in the branch where the division is
evaluated the denominator is nonzero. -/
theorem computeWinPct_spec (w l t : ℕ) :
    (w + l + t = 0 → computeWinPct w l t = 0) ∧
    (0 < w + l + t →
      ((w + l + t : ℕ) : ℚ) ≠ 0 ∧
      computeWinPct w l t = (w : ℚ) / ((w + l + t : ℕ) : ℚ)) := by
  constructor
  · intro h
    simp [computeWinPct, h]
  · intro h
    have hne : ((w + l + t : ℕ) : ℚ) ≠ 0 := by
      have : (0 : ℚ) < ((w + l + t : ℕ) : ℚ) := by exact_mod_cast h
      exact ne_of_gt this
    refine ⟨hne, ?_⟩
    simp only [computeWinPct, if_pos h]

/-- Concrete instances of C9: no games gives 0, three games give 1 / 3. -/
theorem computeWinPct_spec_witness :
    computeWinPct 0 0 0 = 0 ∧ computeWinPct 1 2 0 = (1 : ℚ) / ((1 + 2 + 0 : ℕ) : ℚ) :=
  ⟨(computeWinPct_spec 0 0 0).1 rfl, ((computeWinPct_spec 1 2 0).2 (by norm_num)).2⟩


/-- Componentwise order on the six numeric fields of a standing record. -/
def recLe (a b : TeamRecord) : Prop :=
  a.wins ≤ b.wins ∧ a.losses ≤ b.losses ∧ a.ties ≤ b.ties ∧
  a.pf ≤ b.pf ∧ a.pa ≤ b.pa ∧ a.transaction_count ≤ b.transaction_count

/-- Pointwise order on snapshots: every record present before is still
present and no numeric field of it has decreased. -/
def standingsLe (s t : Standings) : Prop :=
  ∀ rid r, lookupRec s rid = some r → ∃ r', lookupRec t rid = some r' ∧ recLe r r'

theorem recLe_refl (a : TeamRecord) : recLe a a := by
  simp [recLe]

theorem recLe_trans {a b c : TeamRecord} (h1 : recLe a b) (h2 : recLe b c) : recLe a c := by
  obtain ⟨w1, l1, t1, f1, g1, x1⟩ := h1
  obtain ⟨w2, l2, t2, f2, g2, x2⟩ := h2
  exact ⟨le_trans w1 w2, le_trans l1 l2, le_trans t1 t2,
    le_trans f1 f2, le_trans g1 g2, le_trans x1 x2⟩

theorem standingsLe_refl (s : Standings) : standingsLe s s :=
  fun _ r h => ⟨r, h, recLe_refl r⟩

theorem standingsLe_trans {s t u : Standings}
    (h1 : standingsLe s t) (h2 : standingsLe t u) : standingsLe s u := by
  intro rid r hr
  obtain ⟨r1, hr1, hle1⟩ := h1 rid r hr
  obtain ⟨r2, hr2, hle2⟩ := h2 rid r1 hr1
  exact ⟨r2, hr2, recLe_trans hle1 hle2⟩

theorem lookupRec_updRec (s : Standings) (rid : ℕ) (f : TeamRecord → TeamRecord) (q : ℕ) :
    lookupRec (updRec s rid f) q =
      if q = rid then (lookupRec s q).map f else lookupRec s q := by
  induction s with
  | nil => by_cases hq : q = rid <;> simp [updRec, lookupRec, hq]
  | cons p tl ih =>
    simp only [updRec, List.map_cons] at ih ⊢
    by_cases hp : p.1 = rid
    · by_cases hq : q = p.1
      · subst hq
        simp [lookupRec, hp]
      · have hqr : ¬ q = rid := fun h => hq (h.trans hp.symm)
        simp [lookupRec, hp, hq, hqr, ih]
    · by_cases hq : q = p.1
      · have hqr : ¬ q = rid := fun h => hp (hq.symm.trans h)
        simp [lookupRec, hp, hq, hqr]
      · simp [lookupRec, hp, hq, ih]

theorem updRec_mono {f : TeamRecord → TeamRecord} (hf : ∀ r, recLe r (f r))
    (s : Standings) (rid : ℕ) : standingsLe s (updRec s rid f) := by
  intro q r hr
  rw [lookupRec_updRec]
  by_cases hq : q = rid
  · subst hq
    exact ⟨f r, by simp [hr], hf r⟩
  · exact ⟨r, by simp [hq, hr], recLe_refl r⟩

theorem scoreGroup_mono (s : Standings) (g : List MatchupEntry)
    (hpts : ∀ m ∈ g, 0 ≤ getPoints m.points) :
    standingsLe s (scoreGroup s g) := by
  match g with
  | [] => exact standingsLe_refl s
  | [_] => exact standingsLe_refl s
  | _ :: _ :: _ :: _ => exact standingsLe_refl s
  | [t1, t2] =>
    have hp1 : 0 ≤ getPoints t1.points := hpts t1 (by simp)
    have hp2 : 0 ≤ getPoints t2.points := hpts t2 (by simp)
    simp only [scoreGroup]
    match ht1 : t1.roster_id, ht2 : t2.roster_id with
    | none, _ => exact standingsLe_refl s
    | some _, none => exact standingsLe_refl s
    | some r1, some r2 =>
      by_cases hz : r1 ≠ 0 ∧ r2 ≠ 0
      · simp only [if_pos hz]
        have h4 : standingsLe s (updRec (updRec (updRec (updRec s
            r1 (fun r => { r with pf := r.pf + getPoints t1.points }))
            r1 (fun r => { r with pa := r.pa + getPoints t2.points }))
            r2 (fun r => { r with pf := r.pf + getPoints t2.points }))
            r2 (fun r => { r with pa := r.pa + getPoints t1.points })) := by
          refine standingsLe_trans (standingsLe_trans (standingsLe_trans
            (updRec_mono ?_ s r1) (updRec_mono ?_ _ r1)) (updRec_mono ?_ _ r2))
            (updRec_mono ?_ _ r2) <;>
            intro r <;> simp [recLe] <;> linarith
        split
        · exact standingsLe_trans h4 (standingsLe_trans
            (updRec_mono (by intro r; simp [recLe]) _ r1)
            (updRec_mono (by intro r; simp [recLe]) _ r2))
        · split
          · exact standingsLe_trans h4 (standingsLe_trans
              (updRec_mono (by intro r; simp [recLe]) _ r1)
              (updRec_mono (by intro r; simp [recLe]) _ r2))
          · exact standingsLe_trans h4 (standingsLe_trans
              (updRec_mono (by intro r; simp [recLe]) _ r1)
              (updRec_mono (by intro r; simp [recLe]) _ r2))
      · simp only [if_neg hz]
        exact standingsLe_refl s

theorem foldl_standingsLe {α : Type} (f : Standings → α → Standings)
    (h : ∀ acc a, standingsLe acc (f acc a)) :
    ∀ (l : List α) (s : Standings), standingsLe s (l.foldl f s) := by
  intro l
  induction l with
  | nil => intro s; exact standingsLe_refl s
  | cons a tl ih =>
    intro s
    exact standingsLe_trans (h s a) (ih (f s a))

theorem processMatchups_mono (s : Standings) (ms : List MatchupEntry)
    (hpts : ∀ m ∈ ms, 0 ≤ getPoints m.points) :
    standingsLe s (processMatchups s ms) := by
  refine foldl_standingsLe _ ?_ (groupKeys ms) s
  intro acc k
  exact scoreGroup_mono acc (groupOf ms k)
    (fun m hm => hpts m (List.mem_of_mem_filter hm))

theorem processTxns_mono (s : Standings) (ts : List Txn) :
    standingsLe s (processTxns s ts) := by
  refine foldl_standingsLe _ ?_ ts s
  intro acc t
  by_cases hc : t.status = some "complete"
  · simp only [processTxns, if_pos hc]
    refine foldl_standingsLe _ ?_ t.roster_ids acc
    intro a rid
    by_cases hm : (lookupRec a rid).isSome
    · simp only [if_pos hm]
      exact updRec_mono (by intro r; simp [recLe]) a rid
    · simp only [if_neg hm]
      exact standingsLe_refl a
  · simp only [processTxns, if_neg hc]
    exact standingsLe_refl acc

/-- C5 (amended): one application of the weekly update (the matchups and
transactions of one week) never decreases any of the six numeric fields
of any roster record, provided every matchup entry of that week carries a
non-negative points value (the default 0.0 included).  The proviso is
forced: with a negative points value, points-for decreases (see the
counterexample below). -/
theorem processWeekData_monotone (season : SeasonData) (week : ℕ) (s : Standings)
    (hpts : ∀ wd, season week = some wd → ∀ m ∈ wd.matchups, 0 ≤ getPoints m.points) :
    standingsLe s (processWeekData season week s) := by
  cases hw : season week with
  | none => simpa [processWeekData, hw] using standingsLe_refl s
  | some wd =>
    have h1 := processMatchups_mono s wd.matchups (hpts wd hw)
    cases ht : wd.transactions with
    | none => simpa [processWeekData, hw, ht] using h1
    | some ts =>
      have h2 := standingsLe_trans h1 (processTxns_mono (processMatchups s wd.matchups) ts)
      simpa [processWeekData, hw, ht] using h2

/-- A week whose single matchup carries a negative points value. -/
def negWeek : WeekData :=
  ⟨[⟨some 1, some 1, some (-5)⟩, ⟨some 1, some 2, some 3⟩], none⟩

/-- A season holding only `negWeek` at week 1. -/
def negSeason : SeasonData := fun w => if w = 1 then some negWeek else none

/-- A week with non-negative points and one complete transaction. -/
def posWeek : WeekData :=
  ⟨[⟨some 1, some 1, some 3⟩, ⟨some 1, some 2, some 2⟩], some [⟨some "complete", [1]⟩]⟩

/-- A season holding only `posWeek` at week 1. -/
def posSeason : SeasonData := fun w => if w = 1 then some posWeek else none

/-- C5 (counterexample to the claim as stated): applying a week whose
matchup entry carries points value -5 strictly decreases the points-for
field of roster 1, from 0 to -5, so not every field of every roster
record is monotonically non-decreasing. -/
theorem processWeekData_pf_decreases :
    (lookupRec (initStandings [(1, "A"), (2, "B")]) 1).map TeamRecord.pf = some 0 ∧
    (lookupRec (processWeekData negSeason 1 (initStandings [(1, "A"), (2, "B")])) 1).map
      TeamRecord.pf = some (-5) ∧
    (-5 : ℚ) < 0 := by
  refine ⟨by simp [initStandings, lookupRec], ?_, by norm_num⟩
  norm_num [processWeekData, negSeason, negWeek, processMatchups, groupKeys, firstOccur,
    groupOf, truthyId, scoreGroup, getPoints, updRec, initStandings, lookupRec]

/-- Concrete instance of the amended C5: with non-negative weekly points,
the weekly update leaves the initial snapshot pointwise below the result. -/
theorem processWeekData_monotone_witness :
    standingsLe (initStandings [(1, "A"), (2, "B")])
      (processWeekData posSeason 1 (initStandings [(1, "A"), (2, "B")])) := by
  refine processWeekData_monotone posSeason 1 _ ?_
  intro wd hw m hm
  simp [posSeason] at hw
  subst hw
  simp [posWeek] at hm
  rcases hm with h | h <;> subst h <;> norm_num [getPoints]

theorem scoreGroup_id_of_length_ne_two (s : Standings) (g : List MatchupEntry)
    (h : g.length ≠ 2) : scoreGroup s g = s := by
  match g with
  | [] => rfl
  | [_] => rfl
  | [_, _] => simp at h
  | _ :: _ :: _ :: _ => rfl

theorem scoreGroup_id_of_falsy_roster (s : Standings) (t1 t2 : MatchupEntry)
    (h : ¬(truthyId t1.roster_id = true ∧ truthyId t2.roster_id = true)) :
    scoreGroup s [t1, t2] = s := by
  simp only [scoreGroup]
  match ht1 : t1.roster_id, ht2 : t2.roster_id with
  | none, _ => rfl
  | some _, none => rfl
  | some r1, some r2 =>
    rw [ht1, ht2] at h
    simp only [truthyId, bne_iff_ne, ne_eq] at h
    simp [h]

theorem foldl_firstOccur_filter (p : ℕ → Bool) :
    ∀ (l acc : List ℕ),
      (l.filter p).foldl (fun acc k => if k ∈ acc then acc else acc ++ [k]) (acc.filter p) =
      (l.foldl (fun acc k => if k ∈ acc then acc else acc ++ [k]) acc).filter p := by
  intro l
  induction l with
  | nil => intro acc; rfl
  | cons k tl ih =>
    intro acc
    by_cases pk : p k
    · simp only [List.filter_cons, pk, if_pos, List.foldl_cons]
      by_cases hk : k ∈ acc
      · have hkf : k ∈ acc.filter p := List.mem_filter.mpr ⟨hk, pk⟩
        simp only [hk, hkf, if_pos]
        exact ih acc
      · have hkf : k ∉ acc.filter p := fun hm => hk (List.mem_filter.mp hm).1
        simp only [hk, hkf, if_neg, not_false_iff]
        have : acc.filter p ++ [k] = (acc ++ [k]).filter p := by
          simp [List.filter_append, pk]
        rw [this]
        exact ih (acc ++ [k])
    · simp only [List.filter_cons, pk, List.foldl_cons]
      by_cases hk : k ∈ acc
      · simp only [hk, if_pos]
        exact ih acc
      · simp only [hk, if_neg, not_false_iff]
        have : acc.filter p = (acc ++ [k]).filter p := by
          simp [List.filter_append, pk]
        rw [this]
        exact ih (acc ++ [k])

theorem firstOccur_filter (p : ℕ → Bool) (l : List ℕ) :
    firstOccur (l.filter p) = (firstOccur l).filter p := by
  simpa [firstOccur] using foldl_firstOccur_filter p l []

theorem mem_foldl_firstOccur (x : ℕ) :
    ∀ (l acc : List ℕ),
      x ∈ l.foldl (fun acc k => if k ∈ acc then acc else acc ++ [k]) acc →
      x ∈ acc ∨ x ∈ l := by
  intro l
  induction l with
  | nil => intro acc h; exact Or.inl h
  | cons k tl ih =>
    intro acc h
    simp only [List.foldl_cons] at h
    by_cases hk : k ∈ acc
    · rw [if_pos hk] at h
      rcases ih acc h with h1 | h1
      · exact Or.inl h1
      · exact Or.inr (List.mem_cons_of_mem k h1)
    · rw [if_neg hk] at h
      rcases ih (acc ++ [k]) h with h1 | h1
      · rcases List.mem_append.mp h1 with h2 | h2
        · exact Or.inl h2
        · simp at h2
          exact Or.inr (h2 ▸ List.mem_cons_self k tl)
      · exact Or.inr (List.mem_cons_of_mem k h1)

theorem mem_groupKeys_ne_zero (ms : List MatchupEntry) (j : ℕ)
    (hj : j ∈ groupKeys ms) : j ≠ 0 := by
  unfold groupKeys firstOccur at hj
  rcases mem_foldl_firstOccur j _ [] hj with h | h
  · simp at h
  · obtain ⟨m, _, hm⟩ := List.mem_filterMap.mp h
    by_cases ht : truthyId m.matchup_id
    · rw [if_pos ht] at hm
      cases hid : m.matchup_id with
      | none => simp [hid] at hm
      | some v =>
        rw [hid] at hm ht
        simp only [truthyId, bne_iff_ne, ne_eq] at ht
        cases hm
        exact ht
    · rw [if_neg ht] at hm
      cases hm

theorem filterMap_groupIds_filter_ne (ms : List MatchupEntry) (k : ℕ) :
    (ms.filter (fun m => !decide (m.matchup_id = some k))).filterMap
        (fun m => if truthyId m.matchup_id then m.matchup_id else none) =
      (ms.filterMap (fun m => if truthyId m.matchup_id then m.matchup_id else none)).filter
        (fun j => !decide (j = k)) := by
  induction ms with
  | nil => rfl
  | cons m tl ih =>
    by_cases hq : m.matchup_id = some k
    · by_cases htr : truthyId m.matchup_id
      · have htk : truthyId (some k) = true := by rw [← hq]; exact htr
        simp [List.filter_cons, hq, List.filterMap_cons, htk, ih]
      · have htk : ¬ truthyId (some k) = true := by rw [← hq]; exact htr
        simp [List.filter_cons, hq, List.filterMap_cons, htk, ih]
    · by_cases htr : truthyId m.matchup_id
      · cases hid : m.matchup_id with
        | none => rw [hid] at htr; simp [truthyId] at htr
        | some j =>
          have hjk : ¬ j = k := fun h => hq (by rw [hid, h])
          have htj : truthyId (some j) = true := by rw [← hid]; exact htr
          simp [List.filter_cons, hq, List.filterMap_cons, hid, htj, hjk, ih]
      · simp [List.filter_cons, hq, List.filterMap_cons, htr, ih]

theorem groupKeys_filter_ne (ms : List MatchupEntry) (k : ℕ) :
    groupKeys (ms.filter (fun m => !decide (m.matchup_id = some k))) =
      (groupKeys ms).filter (fun j => !decide (j = k)) := by
  unfold groupKeys
  rw [filterMap_groupIds_filter_ne, firstOccur_filter]

theorem groupOf_filter_ne (ms : List MatchupEntry) (k j : ℕ) (hjk : j ≠ k) :
    groupOf (ms.filter (fun m => !decide (m.matchup_id = some k))) j = groupOf ms j := by
  unfold groupOf
  rw [List.filter_filter]
  apply List.filter_congr
  intro m _
  by_cases h : m.matchup_id = some j
  · have hmk : ¬ m.matchup_id = some k := by
      rw [h]
      simp [hjk]
    simp [h, hmk, hjk]
  · simp [h]

theorem foldl_ext_mem {α β : Type} (l : List α) (f g : β → α → β)
    (h : ∀ a ∈ l, ∀ s, f s a = g s a) :
    ∀ s : β, l.foldl f s = l.foldl g s := by
  induction l with
  | nil => intro s; rfl
  | cons a tl ih =>
    intro s
    rw [List.foldl_cons, List.foldl_cons, h a (List.mem_cons_self a tl)]
    exact ih (fun a ha s => h a (List.mem_cons_of_mem _ ha) s) _

theorem foldl_scoreGroup_drop_key (ms : List MatchupEntry) (k : ℕ)
    (hid : ∀ acc, scoreGroup acc (groupOf ms k) = acc) :
    ∀ (keys : List ℕ) (s : Standings),
      (keys.filter (fun j => !decide (j = k))).foldl
          (fun acc j => scoreGroup acc (groupOf ms j)) s =
      keys.foldl (fun acc j => scoreGroup acc (groupOf ms j)) s := by
  intro keys
  induction keys with
  | nil => intro s; rfl
  | cons j tl ih =>
    intro s
    by_cases hj : j = k
    · subst hj
      simp only [List.filter_cons, decide_eq_true_eq, Bool.not_eq_true, decide_eq_false_iff_not]
      rw [if_neg (by simp), List.foldl_cons, hid s]
      exact ih s
    · simp only [List.filter_cons]
      rw [if_pos (by simp [hj]), List.foldl_cons, List.foldl_cons]
      exact ih _

/-- Removing from the raw matchup list all entries of a group whose
scoring is a no-op leaves the processed standings unchanged. -/
theorem processMatchups_drop_group (s : Standings) (ms : List MatchupEntry) (k : ℕ)
    (hid : ∀ acc, scoreGroup acc (groupOf ms k) = acc) :
    processMatchups s (ms.filter (fun m => !decide (m.matchup_id = some k))) =
      processMatchups s ms := by
  unfold processMatchups
  rw [groupKeys_filter_ne]
  have hext : ∀ j ∈ (groupKeys ms).filter (fun j => !decide (j = k)), ∀ acc : Standings,
      scoreGroup acc (groupOf (ms.filter (fun m => !decide (m.matchup_id = some k))) j) =
      scoreGroup acc (groupOf ms j) := by
    intro j hj acc
    have hjk : j ≠ k := by
      have := (List.mem_filter.mp hj).2
      simpa using this
    rw [groupOf_filter_ne ms k j hjk]
  rw [foldl_ext_mem _ _ _ hext s]
  exact foldl_scoreGroup_drop_key ms k hid (groupKeys ms) s

theorem filterMap_groupIds_filter_truthy (ms : List MatchupEntry) :
    (ms.filter (fun m => truthyId m.matchup_id)).filterMap
        (fun m => if truthyId m.matchup_id then m.matchup_id else none) =
      ms.filterMap (fun m => if truthyId m.matchup_id then m.matchup_id else none) := by
  induction ms with
  | nil => rfl
  | cons m tl ih =>
    by_cases htr : truthyId m.matchup_id
    · simp [List.filter_cons, htr, List.filterMap_cons, ih]
    · simp [List.filter_cons, htr, List.filterMap_cons, ih]

theorem groupKeys_filter_truthy (ms : List MatchupEntry) :
    groupKeys (ms.filter (fun m => truthyId m.matchup_id)) = groupKeys ms := by
  unfold groupKeys
  rw [filterMap_groupIds_filter_truthy]

theorem groupOf_filter_truthy (ms : List MatchupEntry) (j : ℕ) (hj : j ≠ 0) :
    groupOf (ms.filter (fun m => truthyId m.matchup_id)) j = groupOf ms j := by
  unfold groupOf
  rw [List.filter_filter]
  apply List.filter_congr
  intro m _
  by_cases h : m.matchup_id = some j
  · simp [h, truthyId, hj]
  · simp [h]

/-- C6: a matchup group with cardinality other than exactly two contributes
nothing to any roster record: processing the matchup list with all entries
of that group removed yields the same standings, and no error occurs. -/
theorem processMatchups_ignores_malformed_group (s : Standings) (ms : List MatchupEntry)
    (k : ℕ) (hlen : (groupOf ms k).length ≠ 2) :
    processMatchups s (ms.filter (fun m => !decide (m.matchup_id = some k))) =
      processMatchups s ms :=
  processMatchups_drop_group s ms k
    (fun acc => scoreGroup_id_of_length_ne_two acc _ hlen)

/-- A matchup list with a three-entry group 5 and a regular group 7. -/
def msMalformed : List MatchupEntry :=
  [⟨some 5, some 1, some 1⟩, ⟨some 5, some 2, some 2⟩, ⟨some 5, some 3, some 3⟩,
   ⟨some 7, some 1, some 4⟩, ⟨some 7, some 2, some 1⟩]

/-- Concrete instance of C6: the three-entry group 5 contributes nothing. -/
theorem processMatchups_ignores_malformed_group_witness :
    (groupOf msMalformed 5).length ≠ 2 ∧
    processMatchups (initStandings [(1, "A"), (2, "B"), (3, "C")])
        (msMalformed.filter (fun m => !decide (m.matchup_id = some 5))) =
      processMatchups (initStandings [(1, "A"), (2, "B"), (3, "C")]) msMalformed :=
  ⟨by decide, processMatchups_ignores_malformed_group _ msMalformed 5 (by decide)⟩

/-- C10: an entry with an absent or falsy (`None` or `0`) matchup group id
contributes nothing to the processed standings, and a two-entry group in
which either roster id is absent or falsy is silently skipped: removing
such entries or groups from the raw matchup list leaves the standings
unchanged. -/
theorem processMatchups_ignores_falsy_ids (s : Standings) (ms : List MatchupEntry) :
    (processMatchups s (ms.filter (fun m => truthyId m.matchup_id)) = processMatchups s ms) ∧
    (∀ k t1 t2, groupOf ms k = [t1, t2] →
      ¬(truthyId t1.roster_id = true ∧ truthyId t2.roster_id = true) →
      processMatchups s (ms.filter (fun m => !decide (m.matchup_id = some k))) =
        processMatchups s ms) := by
  constructor
  · unfold processMatchups
    rw [groupKeys_filter_truthy]
    refine foldl_ext_mem _ _ _ ?_ s
    intro j hj acc
    rw [groupOf_filter_truthy ms j (mem_groupKeys_ne_zero ms j hj)]
  · intro k t1 t2 hg hfr
    refine processMatchups_drop_group s ms k ?_
    intro acc
    rw [hg]
    exact scoreGroup_id_of_falsy_roster acc t1 t2 hfr

/-- A matchup list with falsy group ids and a group with a falsy roster id. -/
def msFalsy : List MatchupEntry :=
  [⟨none, some 1, some 2⟩, ⟨some 0, some 2, some 1⟩,
   ⟨some 3, some 0, some 5⟩, ⟨some 3, some 2, some 4⟩,
   ⟨some 9, some 1, some 6⟩, ⟨some 9, some 2, some 3⟩]

/-- Concrete instance of C10: the falsy-id entries and the group with a
falsy roster id are excluded from scoring. -/
theorem processMatchups_ignores_falsy_ids_witness :
    (processMatchups (initStandings [(1, "A"), (2, "B")])
        (msFalsy.filter (fun m => truthyId m.matchup_id)) =
      processMatchups (initStandings [(1, "A"), (2, "B")]) msFalsy) ∧
    (groupOf msFalsy 3 = [⟨some 3, some 0, some 5⟩, ⟨some 3, some 2, some 4⟩] ∧
      processMatchups (initStandings [(1, "A"), (2, "B")])
          (msFalsy.filter (fun m => !decide (m.matchup_id = some 3))) =
        processMatchups (initStandings [(1, "A"), (2, "B")]) msFalsy) :=
  ⟨(processMatchups_ignores_falsy_ids (initStandings [(1, "A"), (2, "B")]) msFalsy).1,
   by decide,
   (processMatchups_ignores_falsy_ids (initStandings [(1, "A"), (2, "B")]) msFalsy).2
     3 ⟨some 3, some 0, some 5⟩ ⟨some 3, some 2, some 4⟩ (by decide) (by decide)⟩

/-- Arithmetic mean, as computed by statistics.mean. -/
def meanQ (xs : List ℚ) : ℚ := xs.sum / (xs.length : ℚ)

/-- The square of statistics.stdev: sample variance with Bessel correction
(denominator n - 1).  The source takes the square root of this value;
since the root is irrational the model carries the square, which
determines the non-negative standard deviation uniquely. -/
def sampleVarianceQ (xs : List ℚ) : ℚ :=
  ((xs.map (fun x => (x - meanQ xs) ^ 2)).sum) / ((xs.length : ℚ) - 1)

/-- The square of statistics.pstdev: population variance (denominator n). -/
def populationVarianceQ (xs : List ℚ) : ℚ :=
  ((xs.map (fun x => (x - meanQ xs) ^ 2)).sum) / (xs.length : ℚ)

/-- statistics_calculator.py line 73, squared: points_stdev is
statistics.stdev(all_scores) when more than one score exists, else 0.0. -/
def pointsStdevSq (all_scores : List ℚ) : ℚ :=
  if all_scores.length > 1 then sampleVarianceQ all_scores else 0

/-- C4 (counterexample to the claim as stated): on the two scores 0 and 2
the code computes squared deviation 2 (the sample formula), while the
population formula gives 1; as both standard deviations are non-negative
and their squares differ, the population formula is not the one used. -/
theorem pointsStdevSq_not_population :
    pointsStdevSq [0, 2] = 2 ∧ populationVarianceQ [0, 2] = 1 ∧ (2 : ℚ) ≠ 1 := by
  refine ⟨?_, ?_, by norm_num⟩
  · norm_num [pointsStdevSq, sampleVarianceQ, meanQ]
  · norm_num [populationVarianceQ, meanQ]

/-- C4 (amended): the score standard deviation uses the sample formula
(Bessel corrected, denominator n - 1) when at least two scores exist, and
0 when fewer than two; on two or more scores it equals n/(n-1) times
the population variance, hence differs from the population formula
whenever the variance is nonzero. -/
theorem pointsStdevSq_sample_formula (xs : List ℚ) :
    (xs.length < 2 → pointsStdevSq xs = 0) ∧
    (2 ≤ xs.length →
      pointsStdevSq xs = sampleVarianceQ xs ∧
      pointsStdevSq xs =
        ((xs.length : ℚ) / ((xs.length : ℚ) - 1)) * populationVarianceQ xs) := by
  constructor
  · intro h
    have h1 : ¬ xs.length > 1 := by omega
    simp [pointsStdevSq, h1]
  · intro h
    have h1 : xs.length > 1 := by omega
    refine ⟨by simp [pointsStdevSq, h1], ?_⟩
    have h2 : (2 : ℚ) ≤ (xs.length : ℚ) := by exact_mod_cast h
    have hn : (xs.length : ℚ) ≠ 0 := by linarith
    have hn1 : (xs.length : ℚ) - 1 ≠ 0 := by
      intro habs
      have : (xs.length : ℚ) = 1 := by linarith
      linarith
    simp only [pointsStdevSq, h1, if_pos, sampleVarianceQ, populationVarianceQ]
    field_simp
    ring

/-- Concrete instance of the amended C4 at one and two scores. -/
theorem pointsStdevSq_sample_formula_witness :
    pointsStdevSq [5] = 0 ∧
    pointsStdevSq [0, 2] =
      ((([0, 2] : List ℚ).length : ℚ) / ((([0, 2] : List ℚ).length : ℚ) - 1)) *
        populationVarianceQ [0, 2] :=
  ⟨(pointsStdevSq_sample_formula [5]).1 (by norm_num),
   ((pointsStdevSq_sample_formula [0, 2]).2 (by norm_num)).2⟩

/-- One resolved head-to-head pairing produced by `process_week_matchups`
(stats/data_collector.py lines 34-78): a two-entry group whose roster ids
are truthy and resolve to truthy user ids. -/
structure ScoredPair where
  year : String
  week : ℕ
  u1 : String
  u2 : String
  p1 : ℚ
  p2 : ℚ
deriving Repr, DecidableEq

/-- The guard chain of `process_week_matchups` (data_collector.py lines
35-48) applied to one matchup group. -/
def pairOfGroup (year : String) (week : ℕ) (r2u : List (ℕ × String)) :
    List MatchupEntry → Option ScoredPair
  | [t1, t2] =>
    match t1.roster_id, t2.roster_id with
    | some r1, some r2 =>
      if r1 ≠ 0 ∧ r2 ≠ 0 then
        match r2u.lookup r1, r2u.lookup r2 with
        | some u1, some u2 =>
          if u1 ≠ "" ∧ u2 ≠ "" then
            some ⟨year, week, u1, u2, getPoints t1.points, getPoints t2.points⟩
          else none
        | _, _ => none
      else none
    | _, _ => none
  | _ => none

/-- All pairings of one week, in group-key order. -/
def weekScoredPairs (year : String) (week : ℕ) (ms : List MatchupEntry)
    (r2u : List (ℕ × String)) : List ScoredPair :=
  (groupKeys ms).filterMap (fun k => pairOfGroup year week r2u (groupOf ms k))

/-- The raw input of one processed week of `collect_all_season_data`. -/
structure WeekInput where
  year : String
  week : ℕ
  matchups : List MatchupEntry
  roster_to_user : List (ℕ × String)

/-- All pairings of all processed weeks, in processing order. -/
def allScoredPairs (weeks : List WeekInput) : List ScoredPair :=
  weeks.flatMap (fun w => weekScoredPairs w.year w.week w.matchups w.roster_to_user)

/-- The game dictionary of `process_week_matchups`
(data_collector.py lines 59-78). -/
structure Game where
  year : String
  week : ℕ
  points : ℚ
  opponent_points : ℚ
  won : Bool
  margin : ℚ
  opponent_user_id : String
deriving Repr, DecidableEq

/-- The game stored for the first member of a pairing. -/
def gameFor1 (pr : ScoredPair) : Game :=
  ⟨pr.year, pr.week, pr.p1, pr.p2, decide (pr.p1 > pr.p2), pr.p1 - pr.p2, pr.u2⟩

/-- The game stored for the second member of a pairing. -/
def gameFor2 (pr : ScoredPair) : Game :=
  ⟨pr.year, pr.week, pr.p2, pr.p1, decide (pr.p2 > pr.p1), pr.p2 - pr.p1, pr.u1⟩

/-- The game log accumulated for one user over all pairings, in append
order (data_collector.py lines 59-78 with aggregation at lines 176-178). -/
def gamesOf (pairs : List ScoredPair) (uid : String) : List Game :=
  pairs.flatMap (fun pr =>
    (if pr.u1 = uid then [gameFor1 pr] else []) ++
    (if pr.u2 = uid then [gameFor2 pr] else []))

/-- `build_head_to_head_records` (stats/h2h_records.py lines 14-23): wins
of a user against one opponent, scanning the game log and skipping games
with a falsy opponent id. -/
def h2hWins (games : List Game) (opp : String) : ℕ :=
  (games.filter (fun g =>
    !decide (g.opponent_user_id = "") && decide (g.opponent_user_id = opp) && g.won)).length

/-- Losses of a user against one opponent, as credited by
`build_head_to_head_records`. -/
def h2hLosses (games : List Game) (opp : String) : ℕ :=
  (games.filter (fun g =>
    !decide (g.opponent_user_id = "") && decide (g.opponent_user_id = opp) && !g.won)).length

theorem ite_prop_comm {P Q : Prop} [Decidable P] [Decidable Q] (h : P ↔ Q) :
    (if P then (1 : ℕ) else 0) = if Q then 1 else 0 := by
  by_cases hp : P
  · rw [if_pos hp, if_pos (h.mp hp)]
  · rw [if_neg hp, if_neg (fun hq => hp (h.mpr hq))]

theorem h2h_wins_add_losses (games : List Game) (opp : String) :
    h2hWins games opp + h2hLosses games opp =
      (games.filter (fun g =>
        !decide (g.opponent_user_id = "") && decide (g.opponent_user_id = opp))).length := by
  induction games with
  | nil => rfl
  | cons g tl ih =>
    simp only [h2hWins, h2hLosses, List.filter_cons] at ih ⊢
    by_cases h1 : g.opponent_user_id = ""
    · simpa [h1] using ih
    · by_cases h2 : g.opponent_user_id = opp
      · have h1o : ¬ opp = "" := h2 ▸ h1
        cases hw : g.won <;> simp [h2, h1o, hw] <;> omega
      · simpa [h1, h2] using ih

theorem pairOfGroup_truthy (y : String) (w : ℕ) (r2u : List (ℕ × String))
    (g : List MatchupEntry) (pr : ScoredPair)
    (h : pairOfGroup y w r2u g = some pr) : pr.u1 ≠ "" ∧ pr.u2 ≠ "" := by
  match g with
  | [] => simp [pairOfGroup] at h
  | [_] => simp [pairOfGroup] at h
  | _ :: _ :: _ :: _ => simp [pairOfGroup] at h
  | [t1, t2] =>
    rcases h1 : t1.roster_id with _ | r1
    · simp [pairOfGroup, h1] at h
    rcases h2 : t2.roster_id with _ | r2
    · simp [pairOfGroup, h1, h2] at h
    simp only [pairOfGroup, h1, h2] at h
    by_cases hz : r1 ≠ 0 ∧ r2 ≠ 0
    · rw [if_pos hz] at h
      rcases h3 : r2u.lookup r1 with _ | u1 <;> rw [h3] at h
      · simp at h
      rcases h4 : r2u.lookup r2 with _ | u2 <;> rw [h4] at h
      · simp at h
      replace h : (if u1 ≠ "" ∧ u2 ≠ "" then
          some (⟨y, w, u1, u2, getPoints t1.points, getPoints t2.points⟩ : ScoredPair)
        else none) = some pr := h
      by_cases hu : u1 ≠ "" ∧ u2 ≠ ""
      · rw [if_pos hu] at h
        cases h
        exact hu
      · rw [if_neg hu] at h
        cases h
    · rw [if_neg hz] at h
      cases h

theorem allScoredPairs_truthy (weeks : List WeekInput) :
    ∀ pr ∈ allScoredPairs weeks, pr.u1 ≠ "" ∧ pr.u2 ≠ "" := by
  intro pr hpr
  obtain ⟨w, _, hw⟩ := List.mem_flatMap.mp hpr
  obtain ⟨k, _, hk⟩ := List.mem_filterMap.mp hw
  exact pairOfGroup_truthy w.year w.week w.roster_to_user _ pr hk

theorem gamesOf_count_symm (A B : String) :
    ∀ pairs : List ScoredPair, (∀ pr ∈ pairs, pr.u1 ≠ "" ∧ pr.u2 ≠ "") →
      ((gamesOf pairs A).filter (fun g =>
          !decide (g.opponent_user_id = "") && decide (g.opponent_user_id = B))).length =
      ((gamesOf pairs B).filter (fun g =>
          !decide (g.opponent_user_id = "") && decide (g.opponent_user_id = A))).length := by
  intro pairs
  induction pairs with
  | nil => intro _; rfl
  | cons pr tl ih =>
    intro h
    have hpr := h pr (List.mem_cons_self pr tl)
    have htl := ih (fun q hq => h q (List.mem_cons_of_mem pr hq))
    simp only [gamesOf, List.flatMap_cons, List.filter_append, List.length_append] at htl ⊢
    have hrec : ∀ X Y : String, pr.u2 ≠ "" →
        ((if pr.u1 = X then [gameFor1 pr] else []).filter (fun g =>
            !decide (g.opponent_user_id = "") && decide (g.opponent_user_id = Y))).length =
          (if pr.u1 = X ∧ pr.u2 = Y then 1 else 0) := by
      intro X Y hu2
      by_cases c1 : pr.u1 = X
      · by_cases c2 : pr.u2 = Y
        · have hY : ¬ Y = "" := c2 ▸ hu2
          simp [c1, c2, gameFor1, hY]
        · simp [c1, c2, gameFor1]
      · simp [c1]
    have hrec2 : ∀ X Y : String, pr.u1 ≠ "" →
        ((if pr.u2 = X then [gameFor2 pr] else []).filter (fun g =>
            !decide (g.opponent_user_id = "") && decide (g.opponent_user_id = Y))).length =
          (if pr.u2 = X ∧ pr.u1 = Y then 1 else 0) := by
      intro X Y hu1
      by_cases c1 : pr.u2 = X
      · by_cases c2 : pr.u1 = Y
        · have hY : ¬ Y = "" := c2 ▸ hu1
          simp [c1, c2, gameFor2, hY]
        · simp [c1, c2, gameFor2]
      · simp [c1]
    rw [hrec A B hpr.2, hrec2 A B hpr.1, hrec B A hpr.2, hrec2 B A hpr.1, htl,
      ite_prop_comm (show (pr.u1 = A ∧ pr.u2 = B) ↔ (pr.u2 = B ∧ pr.u1 = A) from And.comm),
      ite_prop_comm (show (pr.u2 = A ∧ pr.u1 = B) ↔ (pr.u1 = B ∧ pr.u2 = A) from And.comm)]
    omega

/-- C7: in the head-to-head matrix built by scanning every game log, for
every two participants A and B the total game count matches from both
sides: wins plus losses of A against B equals wins plus losses of B
against A, over any collection of processed weeks. -/
theorem h2h_game_count_symmetric (weeks : List WeekInput) (A B : String) :
    h2hWins (gamesOf (allScoredPairs weeks) A) B +
      h2hLosses (gamesOf (allScoredPairs weeks) A) B =
    h2hWins (gamesOf (allScoredPairs weeks) B) A +
      h2hLosses (gamesOf (allScoredPairs weeks) B) A := by
  rw [h2h_wins_add_losses, h2h_wins_add_losses]
  exact gamesOf_count_symm A B (allScoredPairs weeks) (allScoredPairs_truthy weeks)

/-- Stable insertion step: the new element goes after every element that
the order accepts before it, so equal keys keep original relative order,
matching the stability of the Python sort. -/
def insertLe {α : Type} (le : α → α → Bool) (x : α) : List α → List α
  | [] => [x]
  | y :: ys => if le y x then y :: insertLe le x ys else x :: y :: ys

/-- Stable sort (insertion sort), modelling Python list.sort. -/
def sortStable {α : Type} (le : α → α → Bool) (l : List α) : List α :=
  l.foldl (fun acc x => insertLe le x acc) []

/-- Python max(l, key=key): the first element with maximal key. -/
def maxByKey {α : Type} (key : α → ℚ) (x : α) (xs : List α) : α :=
  xs.foldl (fun b g => if key b < key g then g else b) x

/-- Python min(l, key=key): the first element with minimal key. -/
def minByKey {α : Type} (key : α → ℚ) (x : α) (xs : List α) : α :=
  xs.foldl (fun b g => if key g < key b then g else b) x

/-- The dictionary returned by `calculate_manager_stats`
(stats/statistics_calculator.py lines 75-99).  The points_stdev entry is
carried squared (see pointsStdevSq); score/margin provenance triples are
(value, year, week). -/
structure ManagerStats where
  user_id : String
  seasons : ℕ
  games_played : ℕ
  wins : ℕ
  losses : ℕ
  win_pct : ℚ
  total_pf : ℚ
  avg_pf : ℚ
  total_pa : ℚ
  avg_pa : ℚ
  avg_margin : ℚ
  avg_win_margin : ℚ
  avg_loss_margin : ℚ
  high_score : ℚ × String × ℕ
  low_score : ℚ × String × ℕ
  largest_win : ℚ × String × ℕ
  smallest_win : ℚ × String × ℕ
  largest_loss : ℚ × String × ℕ
  smallest_loss : ℚ × String × ℕ
  median_win_pct : ℚ
  points_stdev_sq : ℚ
  games : List Game
  all_scores : List ℚ
deriving Repr, DecidableEq

/-- `calculate_manager_stats` (stats/statistics_calculator.py lines
12-99): returns None when the games list is empty, otherwise the full
statistics record.  The seasons argument models the set of season labels
(distinct years). -/
def calcManagerStats (user_id : String) (games : List Game) (all_scores : List ℚ)
    (weeks_above_median : ℕ) (total_weeks : ℕ) (seasons : List String) :
    Option ManagerStats :=
  match games with
  | [] => none
  | g0 :: rest =>
    let games := g0 :: rest
    let wins := (games.filter (fun g => g.won)).length
    let losses := (games.filter (fun g => !g.won)).length
    let games_played := games.length
    let total_pf := (games.map (fun g => g.points)).sum
    let total_pa := (games.map (fun g => g.opponent_points)).sum
    let avg_pf := if games_played > 0 then total_pf / (games_played : ℚ) else 0
    let avg_pa := if games_played > 0 then total_pa / (games_played : ℚ) else 0
    let margins := games.map (fun g => g.margin)
    let avg_margin := if margins.isEmpty then 0 else meanQ margins
    let win_margins := (games.filter (fun g => g.won)).map (fun g => g.margin)
    let loss_margins := (games.filter (fun g => !g.won)).map (fun g => g.margin)
    let avg_win_margin := if win_margins.isEmpty then 0 else meanQ win_margins
    let avg_loss_margin := if loss_margins.isEmpty then 0 else meanQ loss_margins
    let high_score_game := maxByKey (fun g => g.points) g0 rest
    let low_score_game := minByKey (fun g => g.points) g0 rest
    let high_score := (high_score_game.points, high_score_game.year, high_score_game.week)
    let low_score := (low_score_game.points, low_score_game.year, low_score_game.week)
    let largest_win_data :=
      match games.filter (fun g => g.won) with
      | [] => ((0 : ℚ), "", 0)
      | w0 :: ws =>
        let lw := maxByKey (fun g => g.margin) w0 ws
        (lw.margin, lw.year, lw.week)
    let smallest_win_data :=
      match games.filter (fun g => g.won) with
      | [] => ((0 : ℚ), "", 0)
      | w0 :: ws =>
        let sw := minByKey (fun g => g.margin) w0 ws
        (sw.margin, sw.year, sw.week)
    let largest_loss_data :=
      match games.filter (fun g => !g.won) with
      | [] => ((0 : ℚ), "", 0)
      | l0 :: ls =>
        let ll := minByKey (fun g => g.margin) l0 ls
        (ll.margin, ll.year, ll.week)
    let smallest_loss_data :=
      match games.filter (fun g => !g.won) with
      | [] => ((0 : ℚ), "", 0)
      | l0 :: ls =>
        let sl := maxByKey (fun g => g.margin) l0 ls
        (sl.margin, sl.year, sl.week)
    let median_win_pct :=
      if total_weeks > 0 then (weeks_above_median : ℚ) / (total_weeks : ℚ) * 100 else 0
    some
      { user_id := user_id
        seasons := seasons.length
        games_played := games_played
        wins := wins
        losses := losses
        win_pct := if games_played > 0 then (wins : ℚ) / (games_played : ℚ) * 100 else 0
        total_pf := total_pf
        avg_pf := avg_pf
        total_pa := total_pa
        avg_pa := avg_pa
        avg_margin := avg_margin
        avg_win_margin := avg_win_margin
        avg_loss_margin := avg_loss_margin
        high_score := high_score
        low_score := low_score
        largest_win := largest_win_data
        smallest_win := smallest_win_data
        largest_loss := largest_loss_data
        smallest_loss := smallest_loss_data
        median_win_pct := median_win_pct
        points_stdev_sq := pointsStdevSq all_scores
        games := games
        all_scores := all_scores }

/-- The per-user accumulator of `collect_all_season_data`
(stats/data_collector.py lines 95-105). -/
structure UserData where
  seasons : List String
  games : List Game
  all_scores : List ℚ
  weeks_above_median : ℕ
  total_weeks : ℕ
  lucky_wins : ℕ
  unlucky_losses : ℕ
  top_score_weeks : ℕ
  low_score_weeks : ℕ
deriving Repr, DecidableEq

/-- One ranked output row of `generate_all_time_standings_csv`
(stats/csv_generators.py lines 48-55): the stats record plus the four
luck/extreme counters and the display name. -/
structure RowStats where
  stats : ManagerStats
  lucky_wins : ℕ
  unlucky_losses : ℕ
  top_score_weeks : ℕ
  low_score_weeks : ℕ
  display_name : String
deriving Repr, DecidableEq

/-- Sort order of csv_generators.py line 58: descending on
(win_pct, total_pf), stable. -/
def rowLe (a b : RowStats) : Bool :=
  if a.stats.win_pct = b.stats.win_pct then decide (b.stats.total_pf ≤ a.stats.total_pf)
  else decide (b.stats.win_pct ≤ a.stats.win_pct)

/-- The ranked row list of `generate_all_time_standings_csv`
(csv_generators.py lines 36-58): one row per user whose stats record is
not None, then the stable descending sort. -/
def managerStatsRows (stats_by_user : List (String × UserData))
    (names : List (String × String)) : List RowStats :=
  sortStable rowLe (stats_by_user.filterMap (fun p =>
    (calcManagerStats p.1 p.2.games p.2.all_scores p.2.weeks_above_median
        p.2.total_weeks p.2.seasons).map (fun s =>
      ⟨s, p.2.lucky_wins, p.2.unlucky_losses, p.2.top_score_weeks,
        p.2.low_score_weeks, (names.lookup p.1).getD p.1⟩)))

theorem rows_filterMap_drop_empty (l : List (String × UserData))
    (names : List (String × String)) :
    (l.filter (fun p => !p.2.games.isEmpty)).filterMap (fun p =>
        (calcManagerStats p.1 p.2.games p.2.all_scores p.2.weeks_above_median
            p.2.total_weeks p.2.seasons).map (fun s =>
          (⟨s, p.2.lucky_wins, p.2.unlucky_losses, p.2.top_score_weeks,
            p.2.low_score_weeks, (names.lookup p.1).getD p.1⟩ : RowStats))) =
      l.filterMap (fun p =>
        (calcManagerStats p.1 p.2.games p.2.all_scores p.2.weeks_above_median
            p.2.total_weeks p.2.seasons).map (fun s =>
          (⟨s, p.2.lucky_wins, p.2.unlucky_losses, p.2.top_score_weeks,
            p.2.low_score_weeks, (names.lookup p.1).getD p.1⟩ : RowStats))) := by
  induction l with
  | nil => rfl
  | cons p tl ih =>
    cases hp : p.2.games with
    | nil =>
      have hnone : calcManagerStats p.1 p.2.games p.2.all_scores p.2.weeks_above_median
          p.2.total_weeks p.2.seasons = none := by rw [hp]; rfl
      simp only [List.filter_cons, hp, List.isEmpty_nil, Bool.not_true, List.filterMap_cons,
        hnone]
      simpa using ih
    | cons g gs =>
      obtain ⟨v, hv⟩ : ∃ v, calcManagerStats p.1 p.2.games p.2.all_scores
          p.2.weeks_above_median p.2.total_weeks p.2.seasons = some v := by
        rw [hp]
        exact ⟨_, rfl⟩
      simp only [List.filter_cons, hp, List.isEmpty_cons, Bool.not_false, if_pos,
        List.filterMap_cons, hv, Option.map_some]
      rw [ih]

/-- C8: a participant with no recorded games is omitted entirely from the
ranked output: the stats computation returns None exactly when the games
list is empty (and a record otherwise), and the ranked row list is
unchanged when all participants with empty game lists are removed from
the input, so no zero or NaN row is ever emitted for them. -/
theorem empty_games_participant_omitted (l : List (String × UserData))
    (names : List (String × String)) (u : String) (as : List ℚ)
    (wam tw : ℕ) (se : List String) :
    calcManagerStats u [] as wam tw se = none ∧
    (∀ g gs, (calcManagerStats u (g :: gs) as wam tw se).isSome = true) ∧
    managerStatsRows (l.filter (fun p => !p.2.games.isEmpty)) names =
      managerStatsRows l names := by
  refine ⟨rfl, fun g gs => rfl, ?_⟩
  unfold managerStatsRows
  rw [rows_filterMap_drop_empty]

/-- The player-info dictionary built inside `_build_team`
(recap/team_builder.py lines 121-125). -/
structure PlayerInfo where
  player_id : String
  player_name : String
  points : ℚ
deriving Repr, DecidableEq

/-- team_builder.py lines 92-95: a player is a DEF player when the
positions map lists category DEF for them. -/
def isDefPlayer (pid : String) (positions_map : List (String × List String)) : Bool :=
  match positions_map.lookup pid with
  | some ps => ps.contains "DEF"
  | none => false

/-- `is_flex_eligible` (team_builder.py lines 42-58): the player is in the
positions map and the positions intersect the FLEX-eligible set
[TE, RB, WR] (constants.py line 18). -/
def isFlexEligible (pid : String) (positions_map : List (String × List String)) : Bool :=
  match positions_map.lookup pid with
  | some ps => ps.any (fun p => ["TE", "RB", "WR"].contains p)
  | none => false

/-- The candidate filter of `_build_team` (team_builder.py lines 86-104),
with the three guards in source order: exclusion of listed starters (a
no-op for the falsy empty list), the zero-scorer guard active exactly
when a starters list is provided (`starters is not None`), and the
min_points guard; DEF players always survive both points guards. -/
def availablePlayers (players_points : List (String × ℚ))
    (positions_map : List (String × List String))
    (starters : Option (List String)) (min_points : ℚ) : List (String × ℚ) :=
  players_points.filter (fun pp =>
    if (match starters with | some s => s.contains pp.1 | none => false) then false
    else if starters.isSome && decide (pp.2 ≤ 0) && !isDefPlayer pp.1 positions_map then false
    else if decide (pp.2 < min_points) && !isDefPlayer pp.1 positions_map then false
    else true)

/-- The per-position buckets of `_build_team` (lines 107-140): players
absent from the positions map are skipped entirely; each survivor joins
the bucket of every listed category, with name fallback to the id. -/
def bucketInfos (avail : List (String × ℚ)) (positions_map : List (String × List String))
    (players_map : List (String × String)) (pos : String) : List PlayerInfo :=
  avail.filterMap (fun pp =>
    match positions_map.lookup pp.1 with
    | none => none
    | some ps =>
      if ps.contains pos then
        some ⟨pp.1, (players_map.lookup pp.1).getD pp.1, pp.2⟩
      else none)

/-- The FLEX-eligible bucket (line 139). -/
def flexInfos (avail : List (String × ℚ)) (positions_map : List (String × List String))
    (players_map : List (String × String)) : List PlayerInfo :=
  avail.filterMap (fun pp =>
    match positions_map.lookup pp.1 with
    | none => none
    | some _ =>
      if isFlexEligible pp.1 positions_map then
        some ⟨pp.1, (players_map.lookup pp.1).getD pp.1, pp.2⟩
      else none)

/-- The bucket sort of lines 142-149: stable by points, descending when
reverse_sort holds, ascending otherwise. -/
def sortBucket (reverse_sort : Bool) (l : List PlayerInfo) : List PlayerInfo :=
  if reverse_sort then sortStable (fun a b => decide (b.points ≤ a.points)) l
  else sortStable (fun a b => decide (a.points ≤ b.points)) l

/-- The partially built team: slot assignments in insertion order plus
the used_players set (team_builder.py lines 151-153). -/
structure FillState where
  team : List (String × PlayerInfo)
  used : List String
deriving Repr, DecidableEq

/-- The QB fill (lines 155-159).  Python indexes roster_positions[0], so
an empty template raises there; theorems below assume a non-empty
template. -/
def fillQB (roster_positions : List String) (qbs : List PlayerInfo)
    (st : FillState) : FillState :=
  match qbs with
  | [] => st
  | q :: _ =>
    if roster_positions.head? = some "QB" then
      ⟨st.team ++ [("QB", q)], st.used ++ [q.player_id]⟩
    else st

/-- The numbered fills for RB and WR slots (lines 161-179): walk the
template; at each matching slot take the next bucket entry, skipping
without advancing when it is already used. -/
def fillNumbered (target : String) (roster_positions : List String)
    (bucket : List PlayerInfo) (st : FillState) : FillState :=
  (roster_positions.foldl (fun acc pos =>
    if pos = target then
      match bucket[acc.2]? with
      | some mi =>
        if acc.1.used.contains mi.player_id then acc
        else (⟨acc.1.team ++ [(target ++ toString (acc.2 + 1), mi)],
               acc.1.used ++ [mi.player_id]⟩, acc.2 + 1)
      | none => acc
    else acc) (st, 0)).1

/-- The single fills for TE and K (lines 181-188 and 202-209): at the
first matching slot take the bucket head, skipping if already used. -/
def fillSingle (target : String) (roster_positions : List String)
    (bucket : List PlayerInfo) (st : FillState) : FillState :=
  if roster_positions.contains target then
    match bucket with
    | [] => st
    | mi :: _ =>
      if st.used.contains mi.player_id then st
      else ⟨st.team ++ [(target, mi)], st.used ++ [mi.player_id]⟩
  else st

/-- The FLEX fill (lines 190-200): at most two FLEX slots, each taking
the first not-yet-used FLEX-eligible player. -/
def fillFlex (roster_positions : List String) (bucket : List PlayerInfo)
    (st : FillState) : FillState :=
  (roster_positions.foldl (fun acc pos =>
    if pos = "FLEX" ∧ acc.2 < 2 then
      match bucket.find? (fun mi => !acc.1.used.contains mi.player_id) with
      | some mi => (⟨acc.1.team ++ [("FLEX" ++ toString (acc.2 + 1), mi)],
                     acc.1.used ++ [mi.player_id]⟩, acc.2 + 1)
      | none => acc
    else acc) (st, 0)).1

/-- The DEF fill (lines 211-217): the bucket head is assigned without a
used_players check. -/
def fillDef (roster_positions : List String) (bucket : List PlayerInfo)
    (st : FillState) : FillState :=
  if roster_positions.contains "DEF" then
    match bucket with
    | [] => st
    | mi :: _ => ⟨st.team ++ [("DEF", mi)], st.used ++ [mi.player_id]⟩
  else st

/-- `_build_team` (team_builder.py lines 61-219): filter the candidates,
bucket them by position, sort each bucket, then fill the slots in the
fixed phase order QB, RB, WR, TE, FLEX, K, DEF. -/
def buildTeam (players_points : List (String × ℚ))
    (positions_map : List (String × List String))
    (roster_positions : List String) (players_map : List (String × String))
    (reverse_sort : Bool) (starters : Option (List String)) (min_points : ℚ) :
    List (String × PlayerInfo) :=
  let avail := availablePlayers players_points positions_map starters min_points
  let qbs := sortBucket reverse_sort (bucketInfos avail positions_map players_map "QB")
  let rbs := sortBucket reverse_sort (bucketInfos avail positions_map players_map "RB")
  let wrs := sortBucket reverse_sort (bucketInfos avail positions_map players_map "WR")
  let tes := sortBucket reverse_sort (bucketInfos avail positions_map players_map "TE")
  let ks := sortBucket reverse_sort (bucketInfos avail positions_map players_map "K")
  let defs := sortBucket reverse_sort (bucketInfos avail positions_map players_map "DEF")
  let flexes := sortBucket reverse_sort (flexInfos avail positions_map players_map)
  (fillDef roster_positions defs
    (fillSingle "K" roster_positions ks
      (fillFlex roster_positions flexes
        (fillSingle "TE" roster_positions tes
          (fillNumbered "WR" roster_positions wrs
            (fillNumbered "RB" roster_positions rbs
              (fillQB roster_positions qbs ⟨[], []⟩))))))).team

/-- Slot-to-participant ids of a built team. -/
def teamIds (team : List (String × PlayerInfo)) : List String :=
  team.map (fun e => e.2.player_id)

/-- C3 (counterexample to the claim as stated): a participant eligible at
both QB and DEF with positive points fills both the QB slot and the DEF
slot of the same built lineup, because the DEF fill performs no
used_players check; the participant ids across filled slots are not
pairwise distinct. -/
theorem buildTeam_duplicate_def_slot :
    (buildTeam [("A", 10)] [("A", ["QB", "DEF"])] ["QB", "DEF"] [] true none 0).map
        (fun e => (e.1, e.2.player_id)) = [("QB", "A"), ("DEF", "A")] ∧
    ¬ (teamIds (buildTeam [("A", 10)] [("A", ["QB", "DEF"])] ["QB", "DEF"] [] true none 0)).Nodup := by
  constructor
  · decide
  · decide

/-- C2 (counterexample to the claim as stated): in a MAX-direction call
(descending sort) with no starters list (the optimal-lineup-score call
pattern, team_builder.py lines 301-309), a zero-scoring candidate whose
only category is QB is retained and fills the QB slot; and in a
MIN-direction call a negative-scoring QB candidate is dropped by the
min_points guard, so not all candidates are retained there. -/
theorem buildTeam_filter_not_direction_keyed :
    isDefPlayer "p" [("p", ["QB"])] = false ∧
    (buildTeam [("p", 0)] [("p", ["QB"])] ["QB"] [] true none 0).map
        (fun e => (e.1, e.2.player_id)) = [("QB", "p")] ∧
    isDefPlayer "q" [("q", ["QB"])] = false ∧
    availablePlayers [("q", -3)] [("q", ["QB"])] none 0 = [] ∧
    buildTeam [("q", -3)] [("q", ["QB"])] ["QB"] [] false none 0 = [] := by
  refine ⟨by decide, by decide, by decide, by decide, by decide⟩

theorem nodup_snoc {α : Type} (l : List α) (a : α) (h : l.Nodup) (ha : a ∉ l) :
    (l ++ [a]).Nodup := by
  simp [List.nodup_append, h, ha]

theorem foldl_inv {α σ : Type} (P : σ → Prop) (f : σ → α → σ)
    (hf : ∀ s a, P s → P (f s a)) (l : List α) : ∀ s, P s → P (l.foldl f s) := by
  induction l with
  | nil => intro s hs; exact hs
  | cons a tl ih =>
    intro s hs
    exact ih (f s a) (hf s a hs)

/-- Invariant of the fill phases before DEF: slot ids are pairwise
distinct and every assigned id has been recorded in used_players. -/
def goodState (st : FillState) : Prop :=
  (teamIds st.team).Nodup ∧ ∀ i ∈ teamIds st.team, i ∈ st.used

theorem goodState_assign (st : FillState) (slot : String) (mi : PlayerInfo)
    (h : goodState st) (hmi : st.used.contains mi.player_id = false) :
    goodState ⟨st.team ++ [(slot, mi)], st.used ++ [mi.player_id]⟩ := by
  obtain ⟨hnd, hsub⟩ := h
  have hnotin : mi.player_id ∉ st.used := by simpa using hmi
  constructor
  · have hids : teamIds (st.team ++ [(slot, mi)]) = teamIds st.team ++ [mi.player_id] := by
      simp [teamIds]
    rw [hids]
    exact nodup_snoc _ _ hnd (fun hx => hnotin (hsub _ hx))
  · intro i hi
    simp only [teamIds, List.map_append, List.map_cons, List.map_nil, List.mem_append,
      List.mem_singleton] at hi ⊢
    rcases hi with hi | hi
    · exact Or.inl (hsub i hi)
    · exact Or.inr hi

theorem fillQB_good (rp : List String) (qbs : List PlayerInfo) :
    goodState (fillQB rp qbs ⟨[], []⟩) := by
  have hempty : goodState ⟨[], []⟩ := by simp [goodState, teamIds]
  unfold fillQB
  match qbs with
  | [] => exact hempty
  | q :: _ =>
    by_cases h : rp.head? = some "QB"
    · simp [h, goodState, teamIds]
    · simp only [h, if_neg, if_false]
      exact hempty

theorem fillNumbered_good (t : String) (rp : List String) (bucket : List PlayerInfo)
    (st : FillState) (h : goodState st) : goodState (fillNumbered t rp bucket st) := by
  unfold fillNumbered
  refine foldl_inv (fun acc : FillState × ℕ => goodState acc.1) _ ?_ rp (st, 0) h
  intro s a hs
  dsimp only
  by_cases hpos : a = t
  · rw [if_pos hpos]
    rcases hb : bucket[s.2]? with _ | mi
    · exact hs
    · by_cases hc : s.1.used.contains mi.player_id
      · simp only [hc, if_pos]
        exact hs
      · simp only [hc, if_neg, Bool.not_eq_true]
        exact goodState_assign s.1 _ mi hs (by simpa using hc)
  · rw [if_neg hpos]
    exact hs

theorem fillSingle_good (t : String) (rp : List String) (bucket : List PlayerInfo)
    (st : FillState) (h : goodState st) : goodState (fillSingle t rp bucket st) := by
  unfold fillSingle
  by_cases hc : rp.contains t
  · rw [if_pos hc]
    rcases bucket with _ | ⟨mi, rest⟩
    · exact h
    · by_cases hu : st.used.contains mi.player_id
      · simp only [hu, if_pos]
        exact h
      · simp only [hu, if_neg, Bool.not_eq_true]
        exact goodState_assign st _ mi h (by simpa using hu)
  · rw [if_neg hc]
    exact h

theorem fillFlex_good (rp : List String) (bucket : List PlayerInfo)
    (st : FillState) (h : goodState st) : goodState (fillFlex rp bucket st) := by
  unfold fillFlex
  refine foldl_inv (fun acc : FillState × ℕ => goodState acc.1) _ ?_ rp (st, 0) h
  intro s a hs
  dsimp only
  by_cases hpos : a = "FLEX" ∧ s.2 < 2
  · rw [if_pos hpos]
    cases hf : List.find? (fun mi => !s.1.used.contains mi.player_id) bucket with
    | none => exact hs
    | some mi =>
      have hp := List.find?_some hf
      exact goodState_assign s.1 _ mi hs (by simpa using hp)
  · rw [if_neg hpos]
    exact hs

theorem fillDef_filter_nodup (rp : List String) (bucket : List PlayerInfo)
    (st : FillState) (h : goodState st) :
    (teamIds ((fillDef rp bucket st).team.filter (fun e => !decide (e.1 = "DEF")))).Nodup := by
  have base : (teamIds (st.team.filter (fun e => !decide (e.1 = "DEF")))).Nodup := by
    obtain ⟨hnd, -⟩ := h
    simp only [teamIds] at hnd ⊢
    exact List.Nodup.sublist
      (List.Sublist.map (fun e => e.2.player_id) (List.filter_sublist st.team)) hnd
  unfold fillDef
  by_cases hc : rp.contains "DEF"
  · rw [if_pos hc]
    rcases bucket with _ | ⟨mi, rest⟩
    · exact base
    · have heq : (st.team ++ [("DEF", mi)]).filter (fun e => !decide (e.1 = "DEF")) =
          st.team.filter (fun e => !decide (e.1 = "DEF")) := by
        simp [List.filter_append]
      simpa [heq] using base
  · rw [if_neg hc]
    exact base

/-- C3 (amended): for every input with a non-empty roster template, all
filled slots other than DEF hold pairwise distinct participant ids.  The
DEF slot is exempt, as forced by the counterexample: the DEF fill
performs no used_players check, so a DEF-eligible participant already
placed at another position can appear a second time at DEF. -/
theorem buildTeam_ids_nodup_except_def (players_points : List (String × ℚ))
    (positions_map : List (String × List String)) (roster_positions : List String)
    (players_map : List (String × String)) (reverse_sort : Bool)
    (starters : Option (List String)) (min_points : ℚ)
    (_hrp : roster_positions ≠ []) :
    (teamIds ((buildTeam players_points positions_map roster_positions players_map
        reverse_sort starters min_points).filter (fun e => !decide (e.1 = "DEF")))).Nodup := by
  unfold buildTeam
  apply fillDef_filter_nodup
  apply fillSingle_good
  apply fillFlex_good
  apply fillSingle_good
  apply fillNumbered_good
  apply fillNumbered_good
  apply fillQB_good

/-- Concrete instance of the amended C3 at the duplicate-DEF input: the
non-DEF slots of the built lineup hold distinct ids. -/
theorem buildTeam_ids_nodup_except_def_witness :
    (teamIds ((buildTeam [("A", 10)] [("A", ["QB", "DEF"])] ["QB", "DEF"] [] true none
        0).filter (fun e => !decide (e.1 = "DEF")))).Nodup :=
  buildTeam_ids_nodup_except_def [("A", 10)] [("A", ["QB", "DEF"])] ["QB", "DEF"] []
    true none 0 (by decide)

theorem mem_insertLe {α : Type} (le : α → α → Bool) (x a : α) :
    ∀ l : List α, a ∈ insertLe le x l ↔ a = x ∨ a ∈ l := by
  intro l
  induction l with
  | nil => simp [insertLe]
  | cons y ys ih =>
    by_cases h : le y x
    · simp only [insertLe, h, if_pos, List.mem_cons, ih]
      tauto
    · simp only [insertLe, h, if_neg, Bool.not_eq_true, List.mem_cons]

theorem mem_sortStable_aux {α : Type} (le : α → α → Bool) (a : α) :
    ∀ (l acc : List α),
      a ∈ l.foldl (fun acc x => insertLe le x acc) acc ↔ a ∈ acc ∨ a ∈ l := by
  intro l
  induction l with
  | nil => simp
  | cons x xs ih =>
    intro acc
    rw [List.foldl_cons, ih, mem_insertLe]
    simp only [List.mem_cons]
    tauto

theorem mem_sortStable {α : Type} (le : α → α → Bool) (a : α) (l : List α) :
    a ∈ sortStable le l ↔ a ∈ l := by
  rw [sortStable, mem_sortStable_aux]
  simp

theorem mem_sortBucket (rs : Bool) (mi : PlayerInfo) (l : List PlayerInfo) :
    mi ∈ sortBucket rs l ↔ mi ∈ l := by
  cases rs <;> simp [sortBucket, mem_sortStable]

theorem bucketInfos_ids (avail : List (String × ℚ)) (pm : List (String × List String))
    (plm : List (String × String)) (pos : String) (mi : PlayerInfo)
    (h : mi ∈ bucketInfos avail pm plm pos) : mi.player_id ∈ avail.map Prod.fst := by
  obtain ⟨pp, hpp, hmk⟩ := List.mem_filterMap.mp h
  rcases hl : pm.lookup pp.1 with _ | ps <;> rw [hl] at hmk
  · simp at hmk
  · replace hmk : (if ps.contains pos = true then
        some (⟨pp.1, (plm.lookup pp.1).getD pp.1, pp.2⟩ : PlayerInfo)
      else none) = some mi := hmk
    by_cases hc : ps.contains pos
    · rw [if_pos hc] at hmk
      cases hmk
      exact List.mem_map.mpr ⟨pp, hpp, rfl⟩
    · rw [if_neg hc] at hmk
      cases hmk

theorem flexInfos_ids (avail : List (String × ℚ)) (pm : List (String × List String))
    (plm : List (String × String)) (mi : PlayerInfo)
    (h : mi ∈ flexInfos avail pm plm) : mi.player_id ∈ avail.map Prod.fst := by
  obtain ⟨pp, hpp, hmk⟩ := List.mem_filterMap.mp h
  rcases hl : pm.lookup pp.1 with _ | ps <;> rw [hl] at hmk
  · simp at hmk
  · replace hmk : (if isFlexEligible pp.1 pm = true then
        some (⟨pp.1, (plm.lookup pp.1).getD pp.1, pp.2⟩ : PlayerInfo)
      else none) = some mi := hmk
    by_cases hc : isFlexEligible pp.1 pm
    · rw [if_pos hc] at hmk
      cases hmk
      exact List.mem_map.mpr ⟨pp, hpp, rfl⟩
    · rw [if_neg hc] at hmk
      cases hmk

/-- All assigned players of the state carry ids from the given list. -/
def memState (ids : List String) (st : FillState) : Prop :=
  ∀ e ∈ st.team, e.2.player_id ∈ ids

theorem memState_assign (ids : List String) (st : FillState) (slot : String)
    (mi : PlayerInfo) (used : List String) (h : memState ids st)
    (hmi : mi.player_id ∈ ids) :
    memState ids ⟨st.team ++ [(slot, mi)], used⟩ := by
  intro e he
  rcases List.mem_append.mp he with he | he
  · exact h e he
  · simp only [List.mem_singleton] at he
    subst he
    exact hmi

theorem fillQB_memState (ids : List String) (rp : List String) (qbs : List PlayerInfo)
    (st : FillState) (hb : ∀ mi ∈ qbs, mi.player_id ∈ ids) (h : memState ids st) :
    memState ids (fillQB rp qbs st) := by
  unfold fillQB
  match qbs with
  | [] => exact h
  | q :: rest =>
    by_cases hh : rp.head? = some "QB"
    · simp only [hh, if_pos]
      exact memState_assign ids st _ q _ h (hb q (List.mem_cons_self q rest))
    · simp only [hh, if_neg, not_false_iff]
      exact h

theorem fillNumbered_memState (ids : List String) (t : String) (rp : List String)
    (bucket : List PlayerInfo) (st : FillState)
    (hb : ∀ mi ∈ bucket, mi.player_id ∈ ids) (h : memState ids st) :
    memState ids (fillNumbered t rp bucket st) := by
  unfold fillNumbered
  refine foldl_inv (fun acc : FillState × ℕ => memState ids acc.1) _ ?_ rp (st, 0) h
  intro s a hs
  dsimp only
  by_cases hpos : a = t
  · rw [if_pos hpos]
    rcases hg : bucket[s.2]? with _ | mi
    · exact hs
    · by_cases hc : s.1.used.contains mi.player_id
      · simp only [hc, if_pos]
        exact hs
      · simp only [hc, if_neg, Bool.not_eq_true]
        exact memState_assign ids s.1 _ mi _ hs (hb mi (List.getElem?_mem hg))
  · rw [if_neg hpos]
    exact hs

theorem fillSingle_memState (ids : List String) (t : String) (rp : List String)
    (bucket : List PlayerInfo) (st : FillState)
    (hb : ∀ mi ∈ bucket, mi.player_id ∈ ids) (h : memState ids st) :
    memState ids (fillSingle t rp bucket st) := by
  unfold fillSingle
  by_cases hc : rp.contains t
  · rw [if_pos hc]
    rcases bucket with _ | ⟨mi, rest⟩
    · exact h
    · by_cases hu : st.used.contains mi.player_id
      · simp only [hu, if_pos]
        exact h
      · simp only [hu, if_neg, Bool.not_eq_true]
        exact memState_assign ids st _ mi _ h (hb mi (List.mem_cons_self mi rest))
  · rw [if_neg hc]
    exact h

theorem fillFlex_memState (ids : List String) (rp : List String)
    (bucket : List PlayerInfo) (st : FillState)
    (hb : ∀ mi ∈ bucket, mi.player_id ∈ ids) (h : memState ids st) :
    memState ids (fillFlex rp bucket st) := by
  unfold fillFlex
  refine foldl_inv (fun acc : FillState × ℕ => memState ids acc.1) _ ?_ rp (st, 0) h
  intro s a hs
  dsimp only
  by_cases hpos : a = "FLEX" ∧ s.2 < 2
  · rw [if_pos hpos]
    cases hf : List.find? (fun mi => !s.1.used.contains mi.player_id) bucket with
    | none => exact hs
    | some mi =>
      exact memState_assign ids s.1 _ mi _ hs (hb mi (List.mem_of_find?_eq_some hf))
  · rw [if_neg hpos]
    exact hs

theorem fillDef_memState (ids : List String) (rp : List String)
    (bucket : List PlayerInfo) (st : FillState)
    (hb : ∀ mi ∈ bucket, mi.player_id ∈ ids) (h : memState ids st) :
    memState ids (fillDef rp bucket st) := by
  unfold fillDef
  by_cases hc : rp.contains "DEF"
  · rw [if_pos hc]
    rcases bucket with _ | ⟨mi, rest⟩
    · exact h
    · exact memState_assign ids st _ mi _ h (hb mi (List.mem_cons_self mi rest))
  · rw [if_neg hc]
    exact h

/-- Every participant assigned anywhere in the built team survived the
candidate filter. -/
theorem buildTeam_ids_sub_avail (players_points : List (String × ℚ))
    (positions_map : List (String × List String)) (roster_positions : List String)
    (players_map : List (String × String)) (reverse_sort : Bool)
    (starters : Option (List String)) (min_points : ℚ) :
    ∀ e ∈ buildTeam players_points positions_map roster_positions players_map
        reverse_sort starters min_points,
      e.2.player_id ∈
        (availablePlayers players_points positions_map starters min_points).map Prod.fst := by
  unfold buildTeam
  refine fillDef_memState _ _ _ _ ?_ (fillSingle_memState _ _ _ _ _ ?_
    (fillFlex_memState _ _ _ _ ?_ (fillSingle_memState _ _ _ _ _ ?_
      (fillNumbered_memState _ _ _ _ _ ?_ (fillNumbered_memState _ _ _ _ _ ?_
        (fillQB_memState _ _ _ _ ?_ ?_)))))) <;>
    first
      | (intro mi hmi
         rw [mem_sortBucket] at hmi
         first
           | exact bucketInfos_ids _ _ _ _ mi hmi
           | exact flexInfos_ids _ _ _ mi hmi)
      | (intro e he; cases he)

theorem key_unique : ∀ (l : List (String × ℚ)), (l.map Prod.fst).Nodup →
    ∀ (pid : String) (a b : ℚ), (pid, a) ∈ l → (pid, b) ∈ l → a = b := by
  intro l
  induction l with
  | nil => intro _ pid a b ha _; cases ha
  | cons q tl ih =>
    intro h pid a b ha hb
    simp only [List.map_cons, List.nodup_cons] at h
    rcases List.mem_cons.mp ha with ha1 | ha1
    · rcases List.mem_cons.mp hb with hb1 | hb1
      · rw [← ha1] at hb1
        injection hb1 with _ h2
        exact h2.symm
      · exact absurd (List.mem_map.mpr ⟨(pid, b), hb1, rfl⟩)
          (by rw [← ha1] at h; exact h.1)
    · rcases List.mem_cons.mp hb with hb1 | hb1
      · exact absurd (List.mem_map.mpr ⟨(pid, a), ha1, rfl⟩)
          (by rw [← hb1] at h; exact h.1)
      · exact ih h.2 pid a b ha1 hb1

theorem not_mem_avail_of_nonpos (players_points : List (String × ℚ))
    (pm : List (String × List String)) (s : List String) (pid : String) (pts : ℚ)
    (hkeys : (players_points.map Prod.fst).Nodup)
    (hmem : (pid, pts) ∈ players_points) (hz : pts ≤ 0)
    (hdef : isDefPlayer pid pm = false) :
    pid ∉ (availablePlayers players_points pm (some s) 0).map Prod.fst := by
  intro hin
  obtain ⟨pr, hpr, hfst⟩ := List.mem_map.mp hin
  obtain ⟨hpp, hpred⟩ := List.mem_filter.mp hpr
  obtain ⟨pk, pv⟩ := pr
  simp only at hfst
  subst hfst
  have hv : pv = pts := key_unique players_points hkeys pk pv pts hpp hmem
  subst hv
  by_cases h1 : s.contains pk
  · simp [h1] at hpred
    exact hpred.1 (by simpa using h1)
  · simp [h1, hdef, hz] at hpred

theorem not_mem_avail_of_neg (players_points : List (String × ℚ))
    (pm : List (String × List String)) (starters : Option (List String))
    (pid : String) (pts : ℚ)
    (hkeys : (players_points.map Prod.fst).Nodup)
    (hmem : (pid, pts) ∈ players_points) (hneg : pts < 0)
    (hdef : isDefPlayer pid pm = false) :
    pid ∉ (availablePlayers players_points pm starters 0).map Prod.fst := by
  intro hin
  obtain ⟨pr, hpr, hfst⟩ := List.mem_map.mp hin
  obtain ⟨hpp, hpred⟩ := List.mem_filter.mp hpr
  obtain ⟨pk, pv⟩ := pr
  simp only at hfst
  subst hfst
  have hv : pv = pts := key_unique players_points hkeys pk pv pts hpp hmem
  subst hv
  rcases starters with _ | s
  · simp [hdef, hneg] at hpred
  · by_cases h1 : s.contains pk
    · simp [h1] at hpred
      exact hpred.1 (by simpa using h1)
    · simp [h1, hdef, hneg, le_of_lt hneg] at hpred

theorem mem_avail_of_nonneg (players_points : List (String × ℚ))
    (pm : List (String × List String)) (pid : String) (pts : ℚ)
    (hmem : (pid, pts) ∈ players_points) (hnn : 0 ≤ pts) :
    (pid, pts) ∈ availablePlayers players_points pm none 0 := by
  refine List.mem_filter.mpr ⟨hmem, ?_⟩
  simp [not_lt.mpr hnn]

/-- C2 (amended): candidate filtering in `_build_team` is keyed to the
presence of the starters argument and the min_points bound, not to the
sort direction: (a) whenever a starters list is provided (the
MAX-direction optimal-team call pattern), every candidate with points
at most 0 whose positions do not include DEF is excluded from the built
lineup; (b) in every call with min_points = 0 (all call sites), every
candidate with negative points whose positions do not include DEF is
excluded from the built lineup, in MIN direction too; (c) when no
starters list is provided (the MIN-direction call and the
optimal-lineup-score MAX call), every candidate with non-negative points
is retained as a candidate. -/
theorem buildTeam_candidate_filtering (players_points : List (String × ℚ))
    (pm : List (String × List String)) (rp : List String)
    (plm : List (String × String)) (rs : Bool)
    (hkeys : (players_points.map Prod.fst).Nodup) :
    (∀ s pid pts, (pid, pts) ∈ players_points → pts ≤ 0 →
      isDefPlayer pid pm = false →
      ∀ e ∈ buildTeam players_points pm rp plm rs (some s) 0,
        e.2.player_id ≠ pid) ∧
    (∀ starters pid pts, (pid, pts) ∈ players_points → pts < 0 →
      isDefPlayer pid pm = false →
      ∀ e ∈ buildTeam players_points pm rp plm rs starters 0,
        e.2.player_id ≠ pid) ∧
    (∀ pid pts, (pid, pts) ∈ players_points → 0 ≤ pts →
      (pid, pts) ∈ availablePlayers players_points pm none 0) := by
  refine ⟨?_, ?_, ?_⟩
  · intro s pid pts hmem hz hdef e he heq
    exact not_mem_avail_of_nonpos players_points pm s pid pts hkeys hmem hz hdef
      (heq ▸ buildTeam_ids_sub_avail players_points pm rp plm rs (some s) 0 e he)
  · intro starters pid pts hmem hneg hdef e he heq
    exact not_mem_avail_of_neg players_points pm starters pid pts hkeys hmem hneg hdef
      (heq ▸ buildTeam_ids_sub_avail players_points pm rp plm rs starters 0 e he)
  · intro pid pts hmem hnn
    exact mem_avail_of_nonneg players_points pm pid pts hmem hnn

/-- Concrete instances of the amended C2: a zero scorer is excluded when a
starters list is given, a negative scorer is excluded even in MIN
direction, and a non-negative scorer is retained with no starters list. -/
theorem buildTeam_candidate_filtering_witness :
    "p" ∉ teamIds (buildTeam [("p", 0), ("r", 5)] [("p", ["QB"]), ("r", ["QB"])]
        ["QB"] [] true (some []) 0) ∧
    "q" ∉ teamIds (buildTeam [("q", -3), ("r", 5)] [("q", ["QB"]), ("r", ["QB"])]
        ["QB"] [] false none 0) ∧
    ("z", 0) ∈ availablePlayers [("z", 0)] [("z", ["QB"])] none 0 := by
  refine ⟨?_, ?_, ?_⟩
  · intro hmem
    obtain ⟨e, he, heq⟩ := List.mem_map.mp hmem
    exact (buildTeam_candidate_filtering [("p", 0), ("r", 5)]
        [("p", ["QB"]), ("r", ["QB"])] ["QB"] [] true (by simp)).1
      [] "p" 0 (by simp) (by norm_num) (by decide) e he heq
  · intro hmem
    obtain ⟨e, he, heq⟩ := List.mem_map.mp hmem
    exact (buildTeam_candidate_filtering [("q", -3), ("r", 5)]
        [("q", ["QB"]), ("r", ["QB"])] ["QB"] [] false (by simp)).2.1
      none "q" (-3) (by simp) (by norm_num) (by decide) e he heq
  · exact (buildTeam_candidate_filtering [("z", 0)] [("z", ["QB"])] [] []
      true (by simp)).2.2 "z" 0 (by simp) (by norm_num)
